import Mathlib

/-!
# Verification of the receipt-OCR field-normalization and filename pipeline

Shallow embedding of the pure core of the `receipt_ocr` repository:
field normalization (`mistral_ocr.extract_info_with_mistral`), filename
building (`gemini_ocr.generate_filename_from_info`,
`mistral_ocr.generate_filename_from_info`), retry scheduling
(`ocr_gui.OcrWorker.perform_ocr_with_retry`), batch processing
(`gemini_ocr.process_directory`), collision handling
(`rename_receipts.rename_receipt_files`), and file validation
(`utils.check_file_validity`).

Strings are modelled as lists of characters (`String.data`); character
classes of the Python regexes are modelled over the ASCII and Hangul
repertoire that the program processes.
-/

namespace ReceiptOcr

/-- The ASCII decimal digits 0-9 (the `[0-9]` class of the spec's
`^[0-9]{6}$|^[0-9]{8}$` regex). -/
def isAsciiDigit (c : Char) : Bool := 48 ≤ c.toNat && c.toNat ≤ 57

/-- Models Python's `\d` / `str.isdigit`, which accept every Unicode
decimal digit (category Nd), not only ASCII: modelled here over the Nd
ranges this program can plausibly meet in OCR output — ASCII,
Arabic-Indic, extended Arabic-Indic, Devanagari, Thai and full-width
digits. -/
def isPyDigit (c : Char) : Bool :=
  isAsciiDigit c
  || (0x660 ≤ c.toNat && c.toNat ≤ 0x669)
  || (0x6F0 ≤ c.toNat && c.toNat ≤ 0x6F9)
  || (0x966 ≤ c.toNat && c.toNat ≤ 0x96F)
  || (0xE50 ≤ c.toNat && c.toNat ≤ 0xE59)
  || (0xFF10 ≤ c.toNat && c.toNat ≤ 0xFF19)

/-- Decimal value of a Unicode decimal digit (what `int` assigns each
Nd character), for the ranges of `isPyDigit`. -/
def pyDigitVal (c : Char) : Nat :=
  if 0x660 ≤ c.toNat && c.toNat ≤ 0x669 then c.toNat - 0x660
  else if 0x6F0 ≤ c.toNat && c.toNat ≤ 0x6F9 then c.toNat - 0x6F0
  else if 0x966 ≤ c.toNat && c.toNat ≤ 0x96F then c.toNat - 0x966
  else if 0xE50 ≤ c.toNat && c.toNat ≤ 0xE59 then c.toNat - 0xE50
  else if 0xFF10 ≤ c.toNat && c.toNat ≤ 0xFF19 then c.toNat - 0xFF10
  else c.toNat - 48

/-- Integer parsing of a digit string as Python `int`, which accepts
Unicode decimal digits. -/
def pyIntOfDigits (l : List Char) : Nat :=
  l.foldl (fun a c => 10 * a + pyDigitVal c) 0

/-- The Hangul compatibility-jamo and syllable ranges that the place
regex `[^\w\sㄱ-ㅣ가-힣]` names explicitly. -/
def isHangul (c : Char) : Bool :=
  (0x3131 ≤ c.toNat && c.toNat ≤ 0x3163) || (0xAC00 ≤ c.toNat && c.toNat ≤ 0xD7A3)

/-- Models Python's `\w` (word character) over the ASCII and Hangul
repertoire handled by the program: underscore, ASCII digits and letters,
and the Hangul ranges. -/
def pyWordChar (c : Char) : Bool :=
  c = '_' || isAsciiDigit c ||
  (65 ≤ c.toNat && c.toNat ≤ 90) || (97 ≤ c.toNat && c.toNat ≤ 122) ||
  isHangul c

/-- Models Python's `\s` / `str.strip` whitespace over ASCII: space,
tab, line feed, carriage return, vertical tab and form feed. -/
def isPySpace (c : Char) : Bool :=
  c.toNat = 32 || c.toNat = 9 || c.toNat = 10 || c.toNat = 13 || c.toNat = 11 || c.toNat = 12

/-- ASCII lower-casing of a character, modelling Python's `str.lower`
on the repertoire used here (Hangul and symbols are unaffected). -/
def asciiLower (c : Char) : Char :=
  if 65 ≤ c.toNat && c.toNat ≤ 90 then Char.ofNat (c.toNat + 32) else c

/-- ASCII upper-casing of a character, modelling Python's `str.upper`
on the repertoire used here (Hangul and symbols are unaffected). -/
def asciiUpper (c : Char) : Char :=
  if 97 ≤ c.toNat && c.toNat ≤ 122 then Char.ofNat (c.toNat - 32) else c

/-- Lower-casing over a character list, as Python `str.lower`. -/
def pyLower (l : List Char) : List Char := l.map asciiLower

/-- Upper-casing over a character list, as Python `str.upper`. -/
def pyUpper (l : List Char) : List Char := l.map asciiUpper

/-- Stripping as Python `str.strip()`: drop leading and trailing
whitespace. -/
def pyStrip (l : List Char) : List Char :=
  ((l.dropWhile isPySpace).reverse.dropWhile isPySpace).reverse

/-- Integer parsing of a digit string, as Python `int`. -/
def digitsToNat (l : List Char) : Nat :=
  l.foldl (fun a c => 10 * a + (c.toNat - 48)) 0

/-- The decimal digit character for `k < 10`. -/
def digitChar48 (k : Nat) : Char := Char.ofNat (48 + k)

/-- Decimal representation of a natural number (the digits Python's
f-string interpolation produces), fuelled for structural recursion. -/
def natDigitsAux : Nat → Nat → List Char
  | 0, _ => []
  | fuel + 1, n =>
    if n < 10 then [digitChar48 n]
    else natDigitsAux fuel (n / 10) ++ [digitChar48 (n % 10)]

/-- Decimal representation of a natural number as a character list. -/
def natRepr (n : Nat) : List Char := natDigitsAux (n + 1) n

end ReceiptOcr

section CheckFileValidity

namespace ReceiptOcr

/-- The basename of a path: the suffix after the last `/`
(what `os.path` separates with `sepIndex`). -/
def basenameOf (l : List Char) : List Char :=
  (l.reverse.takeWhile (fun c => c ≠ '/')).reverse

/-- The extension (with its dot) that `os.path.splitext` extracts from a
basename: everything from the last dot, provided some character of the
basename strictly before that dot is not itself a dot (leading dots of a
basename never start an extension). -/
def extOfBase (base : List Char) : List Char :=
  let rev := base.reverse
  let after := rev.takeWhile (fun c => c ≠ '.')
  if after.length = rev.length then []
  else
    let beforeDot := (rev.drop after.length).drop 1
    if beforeDot.any (fun c => c ≠ '.') then '.' :: after.reverse else []

/-- Lower-cased extension, as `os.path.splitext(file_path)[1].lower()`
in `utils.check_file_validity`. -/
def lowerExt (path : String) : String :=
  String.mk (pyLower (extOfBase (basenameOf path.data)))

/-- API file-format determination of `utils.check_file_validity`
(the `file_format` if-chain). -/
def fmtOf (ext : String) : Option String :=
  if ext = ".jpg" || ext = ".jpeg" then some "jpg"
  else if ext = ".png" then some "png"
  else if ext = ".pdf" then some "pdf"
  else if ext = ".tif" || ext = ".tiff" then some "tiff"
  else none

/-- Truthiness-guarded extension rejection of `utils.check_file_validity`
(`if allowed_extensions and file_ext not in allowed_extensions`): an
absent or empty list never rejects. -/
def extRejected (allowed : Option (List String)) (ext : String) : Bool :=
  match allowed with
  | some l => !l.isEmpty && !l.contains ext
  | none => false

/-- Embedding of `utils.check_file_validity`: existence, extension and size checks.
The filesystem facts (existence, size in bytes) are explicit inputs;
`allowed` is `none` when the caller passes `allowed_extensions=None`.
Returns `(is_valid, file_format, error_message)`. -/
def check_file_validity (pathExists : Bool) (path : String)
    (allowed : Option (List String)) (sizeBytes : Nat) :
    Bool × Option String × Option String :=
  if !pathExists then
    (false, none, some ("File " ++ path ++ " does not exist"))
  else if extRejected allowed (lowerExt path) then
    (false, none, some ("Unsupported file format: " ++ lowerExt path))
  else if sizeBytes > 50 * 1024 * 1024 then
    (false, none, some ("File size exceeds the 50MB limit"))
  else
    (true, fmtOf (lowerExt path), none)

end ReceiptOcr

end CheckFileValidity

section FieldNormalizer

namespace ReceiptOcr

/-- Keyword set of the `KRW` branch of the currency regex
`KRW|KOR|원화|₩|KR` in `mistral_ocr.extract_info_with_mistral`. -/
def krwKeys : List (List Char) := ["KRW".data, "KOR".data, "원화".data, "₩".data, "KR".data]

/-- Keyword set of the `USD` branch (`USD|US|미국|달러|$`). -/
def usdKeys : List (List Char) := ["USD".data, "US".data, "미국".data, "달러".data, "$".data]

/-- Keyword set of the `EUR` branch (`EUR|EU|유로|€`). -/
def eurKeys : List (List Char) := ["EUR".data, "EU".data, "유로".data, "€".data]

/-- Keyword set of the `GBP` branch (`GBP|UK|영국|파운드|£`). -/
def gbpKeys : List (List Char) := ["GBP".data, "UK".data, "영국".data, "파운드".data, "£".data]

/-- Whether the first list is a leading segment of the second. -/
def leadsWith : List Char → List Char → Bool
  | [], _ => true
  | _ :: _, [] => false
  | a :: as, b :: bs => decide (a = b) && leadsWith as bs

/-- Whether the first list occurs contiguously inside the second. -/
def hasSub (p : List Char) : List Char → Bool
  | [] => p.isEmpty
  | c :: rest => leadsWith p (c :: rest) || hasSub p rest

/-- Whether `re.search` with an alternation of literal keywords matches:
some keyword occurs as a contiguous substring. -/
def containsAny (s : List Char) (subs : List (List Char)) : Bool :=
  subs.any (fun p => hasSub p s)

/-- Currency normalization of `mistral_ocr.extract_info_with_mistral`
(the `Handle currency` block): a truthy token is upper-cased and matched
against the curated keyword sets in order KRW, USD, EUR, GBP; an
unmatched token passes through upper-cased; a falsy (absent, null or
empty) token defaults to `KRW`. -/
def normalizeCurrency (cur : Option String) : String :=
  match cur with
  | none => "KRW"
  | some c =>
    if c.data.isEmpty then "KRW"
    else
      let u := pyUpper c.data
      if containsAny u krwKeys then "KRW"
      else if containsAny u usdKeys then "USD"
      else if containsAny u eurKeys then "EUR"
      else if containsAny u gbpKeys then "GBP"
      else String.mk u

/-- Digit residue of the date block: the stripped raw value with the
separators `-`, `.`, `/` removed and then every non-digit removed
(`re.sub(r'[^\d]', ...)` keeps all Unicode decimal digits). -/
def dateDigits (s : String) : List Char :=
  ((pyStrip s.data).filter (fun c => !(c = '-' || c = '.' || c = '/'))).filter isPyDigit

/-- Century prefix chosen for a 6-digit residue: the current century,
minus one when the 2-digit year exceeds the current 2-digit year. -/
def centuryFor (nowYear : Nat) (d : List Char) : Nat :=
  if pyIntOfDigits (d.take 2) > nowYear % 100 then nowYear / 100 - 1 else nowYear / 100

/-- Date normalization of `mistral_ocr.extract_info_with_mistral` (the
`Format date` block), producing the value the `date` field holds
afterwards. `none` models Python `None`. A falsy value skips the block
unchanged; otherwise the value is stripped, `null`/`none` text is
nulled, separators and non-digits are removed, and the digit residue is
dispatched on its length (6 gains a century chosen against the current
year `nowYear`, 8 passes through, more than 8 is cut to 8, anything
else is nulled). -/
def normalizeDateField (nowYear : Nat) (dateVal : Option String) : Option String :=
  match dateVal with
  | none => none
  | some s =>
    if s.data.isEmpty then some s
    else if (pyStrip s.data).isEmpty
        || pyLower (pyStrip s.data) = "null".data
        || pyLower (pyStrip s.data) = "none".data then none
    else if (dateDigits s).isEmpty then none
    else if (dateDigits s).length = 6 then
      some (String.mk (natRepr (centuryFor nowYear (dateDigits s)) ++ dateDigits s))
    else if (dateDigits s).length = 8 then some (String.mk (dateDigits s))
    else if 8 ≤ (dateDigits s).length then some (String.mk ((dateDigits s).take 8))
    else none

/-- NA-degradation applied by `process_file` (both providers): a field
whose value is `None` or a blank string becomes the literal `NA`. -/
def fillNA (v : Option String) : String :=
  match v with
  | none => "NA"
  | some s => if (pyStrip s.data).isEmpty then "NA" else s

/-- Normalized date field as the pipeline produces it: the
`extract_info_with_mistral` date block followed by `process_file`'s
NA-degradation. -/
def normalizeDate (nowYear : Nat) (raw : Option String) : String :=
  fillNA (normalizeDateField nowYear raw)

end ReceiptOcr

end FieldNormalizer

section FilenameBuilder

namespace ReceiptOcr

/-- Characters kept by the first place-cleaning regex `[^\w\s]`
(`re.sub` removes everything else). -/
def keepWordSpace (c : Char) : Bool := pyWordChar c || isPySpace c

/-- Characters kept by the second place-cleaning regex
`[^\w\sㄱ-ㅣ가-힣]`. -/
def keepWordSpaceHangul (c : Char) : Bool := pyWordChar c || isPySpace c || isHangul c

/-- First place-cleaning stage of `generate_filename_from_info`:
`re.sub` dropping non word or space characters, spaces replaced by
underscores, truncated to 30 characters. -/
def sanitizePlace1 (l : List Char) : List Char :=
  ((l.filter keepWordSpace).map (fun c => if c = ' ' then '_' else c)).take 30

/-- Second place-cleaning stage of `gemini_ocr.generate_filename_from_info`:
`re.sub` dropping characters outside word, space and the Hangul ranges. -/
def sanitizePlace2 (l : List Char) : List Char := l.filter keepWordSpaceHangul

/-- Composite place sanitization that `gemini_ocr.generate_filename_from_info`
applies to a usable place value before it enters the filename. -/
def sanitizePlace (s : String) : String :=
  String.mk (sanitizePlace2 (sanitizePlace1 s.data))

/-- A record after `process_file`'s NA-degradation: each of the four
fields is a string, with the literal `NA` as the missing sentinel. -/
structure RecordG where
  date : String
  place : String
  amount : String
  currency : String
deriving DecidableEq

/-- Date parts list of `gemini_ocr.generate_filename_from_info`
(lines appending the `YYMMDD` filename view): a truthy, non-`NA` date of
length at least 8 is cut to characters 3-8 when its first 8 characters
are digits and its first 4 parse into 1900-2099, else cut to its first
8 characters; length at least 6 is cut to its first 6 characters; a
shorter or missing date contributes the literal `NA`. -/
def geminiDateParts (date : String) : List String :=
  if !date.data.isEmpty && pyLower date.data ≠ "na".data then
    if 8 ≤ date.data.length then
      if (date.data.take 8).all isAsciiDigit then
        if 1900 ≤ digitsToNat (date.data.take 4) && digitsToNat (date.data.take 4) ≤ 2099 then
          [String.mk ((date.data.drop 2).take 6)]
        else [String.mk (date.data.take 8)]
      else [String.mk (date.data.take 8)]
    else if 6 ≤ date.data.length then [String.mk (date.data.take 6)]
    else ["NA"]
  else ["NA"]

/-- Place parts list of `gemini_ocr.generate_filename_from_info`: a
truthy, non-`NA` place is cleaned by the first stage; if the cleaned
value is still truthy and non-`NA` the second stage's result is
appended, otherwise the place is omitted. -/
def geminiPlaceParts (place : String) : List String :=
  let p1 := if !place.data.isEmpty && pyLower place.data ≠ "na".data
            then sanitizePlace1 place.data else place.data
  if !p1.isEmpty && pyLower p1 ≠ "na".data then [String.mk (sanitizePlace2 p1)] else []

/-- Amount and currency parts of `gemini_ocr.generate_filename_from_info`:
both usable yields `amount_currency`, only the amount usable yields the
amount alone, otherwise nothing (`NA` comparisons are case sensitive). -/
def geminiAmountParts (amount currency : String) : List String :=
  if amount ≠ "NA" && !currency.data.isEmpty && currency ≠ "NA" then
    [String.mk (amount.data ++ '_' :: currency.data)]
  else if amount ≠ "NA" then [amount]
  else []

/-- Assembled parts list of `gemini_ocr.generate_filename_from_info`. -/
def geminiParts (r : RecordG) : List String :=
  geminiDateParts r.date ++ geminiPlaceParts r.place ++ geminiAmountParts r.amount r.currency

/-- Joining with `_`, as Python `"_".join`. -/
def joinUnderscore : List (List Char) → List Char
  | [] => []
  | [p] => p
  | p :: ps => p ++ '_' :: joinUnderscore ps

/-- Embedding of `gemini_ocr.generate_filename_from_info`: assemble the
parts; when some part differs from the literal `NA`, join them with `_`
and append `.pdf`; otherwise fall back to the original stem followed by
`_receipt.pdf`. -/
def geminiFilename (r : RecordG) (stem : String) : String :=
  if (geminiParts r).any (fun p => p ≠ "NA") then
    String.mk (joinUnderscore ((geminiParts r).map String.data) ++ ".pdf".data)
  else
    String.mk (stem.data ++ "_receipt.pdf".data)

/-- A raw record as `mistral_ocr.generate_filename_from_info` receives
it: `none` models Python `None`; a missing key defaults to the empty
string. -/
structure RecordM where
  date : Option String
  place : Option String
  amount : Option String
  currency : Option String
deriving DecidableEq

/-- Truthiness of an optional string field. -/
def truthy : Option String → Bool
  | none => false
  | some s => !s.data.isEmpty

/-- Date parts list of `mistral_ocr.generate_filename_from_info`: only
a truthy date of length at least 8 contributes a part (cut to
characters 3-8 when the first two characters are `19` or `20` and the
first 8 are digits, else to the first 8 characters); any shorter date
contributes nothing. -/
def mistralDateParts (date : Option String) : List String :=
  match date with
  | none => []
  | some d =>
    if !d.data.isEmpty then
      if 8 ≤ d.data.length then
        if (d.data.take 2 = "19".data || d.data.take 2 = "20".data)
            && (d.data.take 8).all isAsciiDigit then
          [String.mk ((d.data.drop 2).take 6)]
        else [String.mk (d.data.take 8)]
      else []
    else []

/-- Place parts list of `mistral_ocr.generate_filename_from_info`: a
truthy place is cleaned by the first stage and appended when still
truthy (no `NA` filtering and no second stage in this variant). -/
def mistralPlaceParts (place : Option String) : List String :=
  match place with
  | none => []
  | some p =>
    let p1 := if !p.data.isEmpty then sanitizePlace1 p.data else p.data
    if !p1.isEmpty then [String.mk p1] else []

/-- Amount and currency parts of `mistral_ocr.generate_filename_from_info`:
a non-`None` amount is emitted, suffixed with `_currency` when the
currency is truthy; a `None` amount contributes nothing. -/
def mistralAmountParts : Option String → Option String → List String
  | none, _ => []
  | some a, some c => if !c.data.isEmpty then [String.mk (a.data ++ '_' :: c.data)] else [a]
  | some a, none => [a]

/-- Assembled parts list of `mistral_ocr.generate_filename_from_info`. -/
def mistralParts (r : RecordM) : List String :=
  mistralDateParts r.date ++ mistralPlaceParts r.place ++ mistralAmountParts r.amount r.currency

/-- Embedding of `mistral_ocr.generate_filename_from_info`: when the
parts list is non-empty, join with `_` and append `.pdf`; otherwise fall
back to the original stem suffixed with the current timestamp, which is
an explicit input here because the source reads `datetime.now()`. -/
def mistralFilename (r : RecordM) (stem timestamp : String) : String :=
  if !(mistralParts r).isEmpty then
    String.mk (joinUnderscore ((mistralParts r).map String.data) ++ ".pdf".data)
  else
    String.mk (stem.data ++ '_' :: timestamp.data ++ ".pdf".data)

end ReceiptOcr

end FilenameBuilder

section RetryScheduler

namespace ReceiptOcr

/-- Outcome of one extraction attempt inside
`OcrWorker.perform_ocr_with_retry` (one call of
`gemini_ocr.process_file`): a usable result, a result dictionary whose
`error` text does or does not mention a rate limit, a falsy result, or
an exception whose text does or does not match `429`, `rate limit` or
`quota`. -/
inductive AttemptOutcome where
  | success
  | resultRateLimit
  | resultOtherError
  | noResult
  | excRateLimit
  | excOther
deriving DecidableEq

/-- One run of the retry loop of `OcrWorker.perform_ocr_with_retry`,
fuelled by the remaining loop iterations (`maxR - retries`): returns
whether a result was obtained, the number of extraction attempts made,
and the total seconds slept. The outcome of the attempt made with retry
counter `retries` is `out retries`; a result-level rate limit sleeps a
flat 60 seconds; an exception-level rate limit returns without sleeping
once the counter reaches `maxR` and otherwise sleeps
`delay * 2 ^ (retries of the failed attempt)`; another exception sleeps
1 second unless the counter reached `maxR`. -/
def retryAux (out : Nat → AttemptOutcome) (delay maxR : Nat) :
    Nat → Nat → Bool × Nat × Nat
  | _, 0 => (false, 0, 0)
  | retries, fuel + 1 =>
    match out retries with
    | .success => (true, 1, 0)
    | .resultOtherError => (false, 1, 0)
    | .noResult => (false, 1, 0)
    | .resultRateLimit =>
      let r := retryAux out delay maxR (retries + 1) fuel
      (r.1, r.2.1 + 1, r.2.2 + 60)
    | .excRateLimit =>
      if maxR ≤ retries + 1 then (false, 1, 0)
      else
        let r := retryAux out delay maxR (retries + 1) fuel
        (r.1, r.2.1 + 1, r.2.2 + delay * 2 ^ retries)
    | .excOther =>
      if retries + 1 < maxR then
        let r := retryAux out delay maxR (retries + 1) fuel
        (r.1, r.2.1 + 1, r.2.2 + 1)
      else (false, 1, 0)

/-- Embedding of `OcrWorker.perform_ocr_with_retry`: run the retry loop
from a zero retry counter, with `max_retries` iterations available and
the worker's `retry_delay` as the initial delay. -/
def perform_ocr_with_retry (out : Nat → AttemptOutcome) (delay maxR : Nat) :
    Bool × Nat × Nat :=
  retryAux out delay maxR 0 maxR

end ReceiptOcr

end RetryScheduler

section BatchProcessor

namespace ReceiptOcr

/-- Abstract behaviour of the body of `gemini_ocr.process_file` on one
file: it raises an exception, its extraction returns `None`, or it
succeeds with a list of missing fields. -/
inductive InnerBehavior where
  | raise
  | failExtract
  | ok (missing : List String)
deriving DecidableEq

/-- Value returned by `gemini_ocr.process_file` to the directory loop:
`none` for a caught exception, an error dictionary when the extraction
returned `None`, or an info dictionary with its missing fields. -/
inductive PFResult where
  | errorDict
  | info (missing : List String)
deriving DecidableEq

/-- Boundary of `gemini_ocr.process_file`: every exception from the body
is caught and turned into `None`; an extraction failure is returned as
a (truthy) error dictionary. -/
def processFileOutcome : InnerBehavior → Option PFResult
  | .raise => none
  | .failExtract => some .errorDict
  | .ok m => some (.info m)

/-- A directory entry as `gemini_ocr.process_directory` sees it. -/
structure Entry where
  name : String
  isFile : Bool
  suffix : String
  behavior : InnerBehavior
deriving DecidableEq

/-- Supported extension set of `gemini_ocr`. -/
def supportedExts : List String := [".pdf", ".jpg", ".jpeg", ".png"]

/-- Whether `gemini_ocr.process_directory` processes an entry: it is not
the temp directory, not hidden, is a file, and its lower-cased suffix
is supported. -/
def eligible (tempName : String) (e : Entry) : Bool :=
  e.name ≠ tempName
  && !(leadsWith ".".data e.name.data)
  && e.isFile
  && supportedExts.contains (String.mk (pyLower e.suffix.data))

/-- Aggregate outcome of a directory run of
`gemini_ocr.process_directory`. -/
structure Summary where
  processedFiles : List String
  failedFiles : List String
  missingInfoFiles : List (String × List String)
deriving DecidableEq

/-- Missing-fields list the directory loop reads off a truthy
`process_file` result (`extracted_info.get('missing_fields', [])`;
the error dictionary carries none). -/
def missingOf : PFResult → List String
  | .errorDict => []
  | .info m => m

/-- Embedding of the loop of `gemini_ocr.process_directory`: each
eligible entry is processed through the `process_file` boundary; a
truthy result is recorded as processed (with its missing fields when
any), a `None` result as failed; the loop never stops early. -/
def runBatch (tempName : String) : List Entry → Summary
  | [] => ⟨[], [], []⟩
  | e :: es =>
    let rest := runBatch tempName es
    if eligible tempName e then
      match processFileOutcome e.behavior with
      | none =>
        ⟨rest.processedFiles, e.name :: rest.failedFiles, rest.missingInfoFiles⟩
      | some r =>
        ⟨e.name :: rest.processedFiles, rest.failedFiles,
          if !(missingOf r).isEmpty then (e.name, missingOf r) :: rest.missingInfoFiles
          else rest.missingInfoFiles⟩
    else rest

end ReceiptOcr

end BatchProcessor

section CollisionHandling

namespace ReceiptOcr

/-- Embedding of the collision step of
`rename_receipts.rename_receipt_files` (the block guarded by
`os.path.exists(new_path) and source_file != new_path`): the candidate
name is `date_store_price` plus the source extension; when it already
exists in the directory and is not the source file itself, a single
alternative name inserting the source file's stem before the extension
is used instead, with no further probing. -/
def resolveTarget (fdate fstore fprice : String) (sourceName origStem ext : String)
    (existing : List String) : String :=
  if existing.contains (fdate ++ "_" ++ fstore ++ "_" ++ fprice ++ ext)
      && (fdate ++ "_" ++ fstore ++ "_" ++ fprice ++ ext) ≠ sourceName then
    fdate ++ "_" ++ fstore ++ "_" ++ fprice ++ "_" ++ origStem ++ ext
  else fdate ++ "_" ++ fstore ++ "_" ++ fprice ++ ext

/-- Embedding of the rename step of `OcrWorker.run` in `ocr_gui`: when
the target filename already exists it is removed first and the file is
renamed over it; the resulting directory listing replaces the source
name by the target name and drops any pre-existing holder of the target
name. -/
def guiRename (targetName sourceName : String) (existing : List String) : List String :=
  (existing.filter (fun n => n ≠ targetName && n ≠ sourceName)) ++ [targetName]

end ReceiptOcr

end CollisionHandling

section HelperLemmas

namespace ReceiptOcr

/-- Two strings with the same character data are equal. -/
theorem string_eq_of_data (s t : String) (h : s.data = t.data) : s = t := by
  cases s; cases t; exact congrArg String.mk h

/-- Mapping a function that fixes every member is the identity. -/
theorem map_eq_self_of_mem {α : Type} (f : α → α) (l : List α)
    (h : ∀ a ∈ l, f a = a) : l.map f = l := by
  induction l with
  | nil => rfl
  | cons c cs ih =>
    simp only [List.map_cons, h c (by simp), List.cons.injEq, true_and]
    exact ih (fun a ha => h a (by simp [ha]))

/-- Dropping while a predicate that fails on every member keeps the list. -/
theorem dropWhile_eq_self_of_mem (p : Char → Bool) (l : List Char)
    (h : ∀ a ∈ l, p a = false) : l.dropWhile p = l := by
  cases l with
  | nil => rfl
  | cons c cs => simp [List.dropWhile_cons, h c (by simp)]

/-- Stripping a list with no whitespace member keeps the list. -/
theorem pyStrip_eq_self (l : List Char) (h : ∀ a ∈ l, isPySpace a = false) :
    pyStrip l = l := by
  unfold pyStrip
  rw [dropWhile_eq_self_of_mem _ _ h,
    dropWhile_eq_self_of_mem _ _ (fun a ha => h a (List.mem_reverse.mp ha)),
    List.reverse_reverse]

/-- ASCII digits are not Python whitespace. -/
theorem isPySpace_eq_false_of_digit (c : Char) (h : isAsciiDigit c = true) :
    isPySpace c = false := by
  simp only [isAsciiDigit, Bool.and_eq_true, decide_eq_true_eq] at h
  simp only [isPySpace, Bool.or_eq_false_iff, decide_eq_false_iff_not]
  omega

/-- Lower-casing preserves length. -/
theorem pyLower_length (l : List Char) : (pyLower l).length = l.length :=
  List.length_map l asciiLower

/-- Decimal digit characters are ASCII digits. -/
theorem digitChar48_isDigit (k : Nat) (h : k ≤ 9) :
    isAsciiDigit (digitChar48 k) = true := by
  interval_cases k <;> decide

/-- Decimal representation of a two-digit number. -/
theorem natRepr_two_digit (n : Nat) (h10 : 10 ≤ n) (h99 : n ≤ 99) :
    natRepr n = [digitChar48 (n / 10), digitChar48 (n % 10)] := by
  unfold natRepr
  cases n with
  | zero => omega
  | succ m =>
    show natDigitsAux (m + 1 + 1) (m + 1) = _
    rw [natDigitsAux]
    rw [if_neg (by omega)]
    have hdiv : (m + 1) / 10 < 10 := by omega
    cases m with
    | zero => omega
    | succ k =>
      show natDigitsAux (k + 1 + 1) ((k + 2) / 10) ++ _ = _
      rw [natDigitsAux, if_pos (by omega)]
      rfl

end ReceiptOcr

end HelperLemmas



section ClaimC10

namespace ReceiptOcr

/-- C10 counterexample: `check_file_validity` with an *empty*
allowed-extensions list accepts a file whose extension is (vacuously)
not in the list, because Python's truthiness test
`if allowed_extensions and ...` skips the check for an empty list; the
claim demands `(False, None, message)` here. -/
theorem c10_counterexample :
    check_file_validity true "a.exe" (some []) 0 = (true, none, none)
    ∧ lowerExt "a.exe" ∉ ([] : List String)
    ∧ ¬(check_file_validity true "a.exe" (some []) 0).1 = false := by
  decide

/-- C10 (amended): `check_file_validity` is total and returns
`(False, None, message)` when the path does not exist, when a
*non-empty* allowed-extensions list is given and the lower-cased
extension is not in it, or when the size exceeds 50 MB; when it returns
valid, the file format is the `fmtOf` mapping of the lower-cased
extension (jpg/jpg/png/pdf/tiff/tiff on the six known extensions, per
`c10_witness`). -/
theorem c10_check_file_validity (pathExists : Bool) (path : String)
    (allowed : Option (List String)) (sizeBytes : Nat) :
    (pathExists = false →
      check_file_validity pathExists path allowed sizeBytes
        = (false, none, some ("File " ++ path ++ " does not exist")))
    ∧ (∀ l, allowed = some l → l ≠ [] → lowerExt path ∉ l →
        (check_file_validity pathExists path allowed sizeBytes).1 = false
        ∧ (check_file_validity pathExists path allowed sizeBytes).2.1 = none)
    ∧ (pathExists = true → sizeBytes > 50 * 1024 * 1024 →
        (check_file_validity pathExists path allowed sizeBytes).1 = false
        ∧ (check_file_validity pathExists path allowed sizeBytes).2.1 = none)
    ∧ ((check_file_validity pathExists path allowed sizeBytes).1 = true →
        (check_file_validity pathExists path allowed sizeBytes).2.1
          = fmtOf (lowerExt path)) := by
  refine ⟨?_, ?_, ?_, ?_⟩
  · rintro rfl
    rfl
  · rintro l rfl hne hnotin
    have hcontains : l.contains (lowerExt path) = false := by
      cases h : l.contains (lowerExt path) with
      | false => rfl
      | true => exact absurd (List.mem_of_elem_eq_true h) hnotin
    have hempty : l.isEmpty = false := by
      cases l with
      | nil => exact absurd rfl hne
      | cons a as => rfl
    have hrej : extRejected (some l) (lowerExt path) = true := by
      show (!l.isEmpty && !l.contains (lowerExt path)) = true
      rw [hempty, hcontains]
      rfl
    cases pathExists with
    | false => exact ⟨rfl, rfl⟩
    | true =>
      unfold check_file_validity
      rw [show (!true) = false from rfl, if_neg (by simp), if_pos hrej]
      exact ⟨rfl, rfl⟩
  · rintro rfl hsize
    unfold check_file_validity
    rw [show (!true) = false from rfl, if_neg (by simp)]
    by_cases hrej : extRejected allowed (lowerExt path) = true
    · rw [if_pos hrej]
      exact ⟨rfl, rfl⟩
    · rw [if_neg hrej, if_pos hsize]
      exact ⟨rfl, rfl⟩
  · intro hvalid
    cases pathExists with
    | false => simp [check_file_validity] at hvalid
    | true =>
      unfold check_file_validity at hvalid ⊢
      rw [show (!true) = false from rfl, if_neg (by simp)] at hvalid ⊢
      split at hvalid
      · exact absurd hvalid (by simp)
      · rename_i hnotrej
        rw [if_neg hnotrej]
        split at hvalid
        · exact absurd hvalid (by simp)
        · rename_i hnotsize
          rw [if_neg hnotsize]

/-- C10 witness: a concrete rejected extension under a non-empty list,
and the concrete format mapping of the six known extensions. -/
theorem c10_witness :
    ((check_file_validity true "a.tar.gz" (some [".pdf"]) 0).1 = false
      ∧ (check_file_validity true "a.tar.gz" (some [".pdf"]) 0).2.1 = none)
    ∧ fmtOf ".jpg" = some "jpg" ∧ fmtOf ".jpeg" = some "jpg"
    ∧ fmtOf ".png" = some "png" ∧ fmtOf ".pdf" = some "pdf"
    ∧ fmtOf ".tif" = some "tiff" ∧ fmtOf ".tiff" = some "tiff" :=
  ⟨(c10_check_file_validity true "a.tar.gz" (some [".pdf"]) 0).2.1
      [".pdf"] rfl (by decide) (by decide),
    by decide, by decide, by decide, by decide, by decide, by decide⟩

end ReceiptOcr

end ClaimC10

section ClaimC8

namespace ReceiptOcr

/-- C8 counterexample: the token `원` (the bare won character named by
the claim) is not matched by the code's KRW keyword set, whose Korean
keyword is `원화`; it passes through unchanged instead of mapping to
`KRW`. -/
theorem c8_counterexample :
    normalizeCurrency (some "원") = "원"
    ∧ normalizeCurrency (some "원") ≠ "KRW" := by
  decide

/-- C8 (amended): `normalizeCurrency` upper-cases a truthy token and
maps it by the code's curated keyword sets — `KRW`/`KOR`/`원화`/`₩`/`KR`
to `KRW`, then `USD`/`US`/`미국`/`달러`/`$` to `USD`, then
`EUR`/`EU`/`유로`/`€` to `EUR`, then `GBP`/`UK`/`영국`/`파운드`/`£` to
`GBP` (the bare `원` is not a keyword); an unmatched non-empty token
passes through upper-cased; an absent or empty token defaults to
`KRW`. -/
theorem c8_normalize_currency (cur : Option String) :
    ((cur = none ∨ cur = some "") → normalizeCurrency cur = "KRW")
    ∧ (∀ c : String, cur = some c → c.data ≠ [] →
        (containsAny (pyUpper c.data) krwKeys = true →
          normalizeCurrency cur = "KRW")
        ∧ (containsAny (pyUpper c.data) krwKeys = false →
            containsAny (pyUpper c.data) usdKeys = true →
          normalizeCurrency cur = "USD")
        ∧ (containsAny (pyUpper c.data) krwKeys = false →
            containsAny (pyUpper c.data) usdKeys = false →
            containsAny (pyUpper c.data) eurKeys = true →
          normalizeCurrency cur = "EUR")
        ∧ (containsAny (pyUpper c.data) krwKeys = false →
            containsAny (pyUpper c.data) usdKeys = false →
            containsAny (pyUpper c.data) eurKeys = false →
            containsAny (pyUpper c.data) gbpKeys = true →
          normalizeCurrency cur = "GBP")
        ∧ (containsAny (pyUpper c.data) krwKeys = false →
            containsAny (pyUpper c.data) usdKeys = false →
            containsAny (pyUpper c.data) eurKeys = false →
            containsAny (pyUpper c.data) gbpKeys = false →
          normalizeCurrency cur = String.mk (pyUpper c.data))) := by
  constructor
  · rintro (rfl | rfl)
    · rfl
    · rfl
  · rintro c rfl hc
    have hne : c.data.isEmpty = false := by
      cases h : c.data with
      | nil => exact absurd h hc
      | cons a as => rfl
    refine ⟨?_, ?_, ?_, ?_, ?_⟩
    · intro h1
      simp [normalizeCurrency, hne, h1]
    · intro h1 h2
      simp [normalizeCurrency, hne, h1, h2]
    · intro h1 h2 h3
      simp [normalizeCurrency, hne, h1, h2, h3]
    · intro h1 h2 h3 h4
      simp [normalizeCurrency, hne, h1, h2, h3, h4]
    · intro h1 h2 h3 h4
      simp [normalizeCurrency, hne, h1, h2, h3, h4]

/-- C8 witness: concrete tokens through each branch. -/
theorem c8_witness :
    normalizeCurrency (some "krw") = "KRW"
    ∧ normalizeCurrency (some "달러") = "USD"
    ∧ normalizeCurrency (some "xyz") = "XYZ"
    ∧ normalizeCurrency none = "KRW" :=
  ⟨((c8_normalize_currency (some "krw")).2 "krw" rfl (by decide)).1 (by decide),
    (((c8_normalize_currency (some "달러")).2 "달러" rfl (by decide)).2.1
      (by decide) (by decide)),
    by
      have h := (((((c8_normalize_currency (some "xyz")).2 "xyz" rfl
        (by decide)).2.2.2.2) (by decide) (by decide) (by decide) (by decide)))
      simpa using h,
    (c8_normalize_currency none).1 (Or.inl rfl)⟩

end ReceiptOcr

end ClaimC8

section ClaimC5

namespace ReceiptOcr

/-- C5 counterexample: with two pre-existing files sharing the candidate
stem (`0101_store_100.pdf` and the one-shot alternative
`0101_store_100_rcpt.pdf`), the resolver returns a name that is *not*
distinct from the pre-existing ones and is not the numeric-suffix name
`0101_store_100_1.pdf` the claim requires — there is no `_1`, `_2`, ...
probing loop in the code. -/
theorem c5_counterexample :
    resolveTarget "0101" "store" "100" "rcpt.pdf" "rcpt" ".pdf"
        ["0101_store_100.pdf", "0101_store_100_rcpt.pdf"]
      ∈ (["0101_store_100.pdf", "0101_store_100_rcpt.pdf"] : List String)
    ∧ resolveTarget "0101" "store" "100" "rcpt.pdf" "rcpt" ".pdf"
        ["0101_store_100.pdf", "0101_store_100_rcpt.pdf"]
      ≠ "0101_store_100_1.pdf" := by
  decide

/-- C5 (amended): on a collision with a file other than the source,
`rename_receipts` falls back exactly once to an alternative name that
inserts the source file's stem before the extension — it does not probe
with numeric `_1`, `_2`, ... suffixes and the alternative is not
re-checked against the directory; without a collision the candidate is
kept. The GUI worker (`OcrWorker.run`) instead deletes a pre-existing
target and renames over it, so afterwards the target name is present
exactly once. Neither path surfaces a collision as a failure (both are
inside caught-exception regions). -/
theorem c5_collision (fdate fstore fprice sourceName origStem ext : String)
    (existing : List String) (targetName srcName : String) :
    (resolveTarget fdate fstore fprice sourceName origStem ext existing
        = fdate ++ "_" ++ fstore ++ "_" ++ fprice ++ ext
      ∨ resolveTarget fdate fstore fprice sourceName origStem ext existing
        = fdate ++ "_" ++ fstore ++ "_" ++ fprice ++ "_" ++ origStem ++ ext)
    ∧ (¬(existing.contains (fdate ++ "_" ++ fstore ++ "_" ++ fprice ++ ext)
          = true ∧ fdate ++ "_" ++ fstore ++ "_" ++ fprice ++ ext ≠ sourceName) →
        resolveTarget fdate fstore fprice sourceName origStem ext existing
          = fdate ++ "_" ++ fstore ++ "_" ++ fprice ++ ext)
    ∧ (existing.contains (fdate ++ "_" ++ fstore ++ "_" ++ fprice ++ ext) = true →
        fdate ++ "_" ++ fstore ++ "_" ++ fprice ++ ext ≠ sourceName →
        resolveTarget fdate fstore fprice sourceName origStem ext existing
          = fdate ++ "_" ++ fstore ++ "_" ++ fprice ++ "_" ++ origStem ++ ext)
    ∧ (guiRename targetName srcName existing).count targetName = 1 := by
  refine ⟨?_, ?_, ?_, ?_⟩
  · unfold resolveTarget
    split
    · exact Or.inr rfl
    · exact Or.inl rfl
  · intro h
    unfold resolveTarget
    rw [if_neg]
    intro hcond
    simp only [Bool.and_eq_true, decide_eq_true_eq, ne_eq] at hcond
    exact h ⟨hcond.1, hcond.2⟩
  · intro hmem hne
    unfold resolveTarget
    rw [if_pos]
    simp only [Bool.and_eq_true, decide_eq_true_eq]
    exact ⟨hmem, hne⟩
  · unfold guiRename
    rw [List.count_append]
    have h1 : (existing.filter
        (fun n => n ≠ targetName && n ≠ srcName)).count targetName = 0 := by
      rw [List.count_eq_zero]
      intro hmem
      have h2 := (List.mem_filter.mp hmem).2
      rw [Bool.and_eq_true] at h2
      have h3 := h2.1
      rw [decide_eq_true_eq] at h3
      exact h3 rfl
    rw [h1]
    simp

/-- C5 witness: a concrete collision resolved by the one-shot stem
alternative. -/
theorem c5_witness :
    resolveTarget "0415" "shop" "9000" "r1.pdf" "r1" ".pdf"
        ["0415_shop_9000.pdf"]
      = "0415_shop_9000_r1.pdf" :=
  (c5_collision "0415" "shop" "9000" "r1.pdf" "r1" ".pdf"
      ["0415_shop_9000.pdf"] "x" "y").2.2.1 (by decide) (by decide)

end ReceiptOcr

end ClaimC5

section ClaimC6

namespace ReceiptOcr

/-- C6 counterexample: two calls of the Mistral builder on the same
all-`None` record and the same original stem return different filenames
when made at different clock readings, because the no-usable-parts
fallback embeds `datetime.now()` — the builder is not a deterministic
function of (record, stem). -/
theorem c6_counterexample :
    mistralFilename ⟨none, none, none, none⟩ "invoice_003" "20250101_000000"
      ≠ mistralFilename ⟨none, none, none, none⟩ "invoice_003" "20250101_000001" := by
  decide

/-- C6 (amended): the Mistral builder is deterministic in (record, stem)
whenever at least one filename part is assembled — only the
no-usable-parts fallback reads the clock. (The Gemini builder takes no
clock input at all, so its determinism is definitional.) -/
theorem c6_mistral_deterministic (r : RecordM) (stem t1 t2 : String)
    (h : mistralParts r ≠ []) :
    mistralFilename r stem t1 = mistralFilename r stem t2 := by
  unfold mistralFilename
  have hne : (mistralParts r).isEmpty = false := by
    cases hp : mistralParts r with
    | nil => exact absurd hp h
    | cons a as => rfl
  rw [hne]
  rfl

/-- C6 witness: a record with a usable date builds the same filename at
two different timestamps. -/
theorem c6_witness :
    mistralFilename ⟨some "20250101", none, none, none⟩ "a" "t1"
      = mistralFilename ⟨some "20250101", none, none, none⟩ "a" "t2" :=
  c6_mistral_deterministic ⟨some "20250101", none, none, none⟩ "a" "t1" "t2" (by decide)

end ReceiptOcr

end ClaimC6

section ClaimC1

namespace ReceiptOcr

/-- The retry loop makes at most as many attempts as it has fuel. -/
theorem retryAux_attempts_le (out : Nat → AttemptOutcome) (delay maxR : Nat) :
    ∀ fuel retries, (retryAux out delay maxR retries fuel).2.1 ≤ fuel := by
  intro fuel
  induction fuel with
  | zero =>
    intro retries
    simp [retryAux]
  | succ f ih =>
    intro retries
    rw [retryAux]
    split
    · simp
    · simp
    · simp
    · simpa using Nat.succ_le_succ (ih (retries + 1))
    · split
      · simp
      · simpa using Nat.succ_le_succ (ih (retries + 1))
    · split
      · simpa using Nat.succ_le_succ (ih (retries + 1))
      · simp

/-- Under sustained exception-level rate limiting, the waits remaining
from retry counter `retries` sum to the geometric tail
`delay * (2 ^ (maxR - 1) - 2 ^ retries)`: the final failing attempt
returns without waiting. -/
theorem retryAux_rateLimited_wait (delay maxR : Nat) :
    ∀ fuel retries, retries + fuel = maxR → 1 ≤ fuel →
      (retryAux (fun _ => AttemptOutcome.excRateLimit) delay maxR retries fuel).2.2
        = delay * (2 ^ (maxR - 1) - 2 ^ retries) := by
  intro fuel
  induction fuel with
  | zero =>
    intro retries hsum hpos
    omega
  | succ f ih =>
    intro retries hsum _
    rw [retryAux]
    show (if maxR ≤ retries + 1 then ((false, 1, 0) : Bool × Nat × Nat)
      else
        ((retryAux (fun _ => AttemptOutcome.excRateLimit) delay maxR (retries + 1) f).1,
          (retryAux (fun _ => AttemptOutcome.excRateLimit) delay maxR (retries + 1) f).2.1 + 1,
          (retryAux (fun _ => AttemptOutcome.excRateLimit) delay maxR (retries + 1) f).2.2
            + delay * 2 ^ retries)).2.2
      = delay * (2 ^ (maxR - 1) - 2 ^ retries)
    by_cases hend : maxR ≤ retries + 1
    · rw [if_pos hend]
      have hr : retries = maxR - 1 := by omega
      rw [hr, Nat.sub_self, Nat.mul_zero]
    · rw [if_neg hend]
      have hf : 1 ≤ f := by omega
      have hrec := ih (retries + 1) (by omega) hf
      show (retryAux (fun _ => AttemptOutcome.excRateLimit) delay maxR (retries + 1) f).2.2
          + delay * 2 ^ retries = delay * (2 ^ (maxR - 1) - 2 ^ retries)
      rw [hrec, ← Nat.mul_add]
      have hle : 2 ^ (retries + 1) ≤ 2 ^ (maxR - 1) :=
        Nat.pow_le_pow_right (by omega) (by omega)
      have hsucc : 2 ^ (retries + 1) = 2 * 2 ^ retries := by
        rw [Nat.pow_succ]
        omega
      congr 1
      omega

/-- C1 counterexample: with the defaults `max_retries = 5` and
`retry_delay = 2` and every attempt failing with a rate-limit
exception, `perform_ocr_with_retry` sleeps a total of 30 seconds
(2 + 4 + 8 + 16), not the claimed
`initialDelay * (2 ^ maxRetries - 1) = 62`: the loop returns
immediately after the final failed attempt instead of waiting. -/
theorem c1_counterexample :
    (perform_ocr_with_retry (fun _ => AttemptOutcome.excRateLimit) 2 5).2.2 = 30
    ∧ (perform_ocr_with_retry (fun _ => AttemptOutcome.excRateLimit) 2 5).2.2
      ≠ 2 * (2 ^ 5 - 1) := by
  decide

/-- C1 (amended): for every outcome sequence,
`perform_ocr_with_retry` makes at most `maxRetries` extraction
attempts; and under sustained exception-level rate limiting the
exponential waits `delay * 2 ^ (attempt - 1)` of attempts 1 through
`maxRetries - 1` sum to `delay * (2 ^ (maxRetries - 1) - 1)` — there is
no wait after the final failed attempt. -/
theorem c1_retry_bound (out : Nat → AttemptOutcome) (delay maxR : Nat)
    (h : 1 ≤ maxR) :
    (perform_ocr_with_retry out delay maxR).2.1 ≤ maxR
    ∧ (perform_ocr_with_retry (fun _ => AttemptOutcome.excRateLimit) delay maxR).2.2
      = delay * (2 ^ (maxR - 1) - 1) := by
  constructor
  · exact retryAux_attempts_le out delay maxR maxR 0
  · have hw := retryAux_rateLimited_wait delay maxR maxR 0 (by omega) (by omega)
    simpa using hw

/-- C1 witness: the amended bound at the defaults. -/
theorem c1_witness :
    (perform_ocr_with_retry (fun _ => AttemptOutcome.excRateLimit) 2 5).2.1 ≤ 5
    ∧ (perform_ocr_with_retry (fun _ => AttemptOutcome.excRateLimit) 2 5).2.2
      = 2 * (2 ^ (5 - 1) - 1) :=
  ⟨(c1_retry_bound (fun _ => AttemptOutcome.excRateLimit) 2 5 (by omega)).1,
    (c1_retry_bound (fun _ => AttemptOutcome.excRateLimit) 2 5 (by omega)).2⟩

end ReceiptOcr

end ClaimC1

section ClaimC7

namespace ReceiptOcr

/-- C7 counterexample: a file whose extraction returns a failure is
reported back as a truthy error dictionary, which the directory loop of
`gemini_ocr.process_directory` records as *processed*, not failed — the
per-file error is not converted into a failed outcome. -/
theorem c7_counterexample :
    (runBatch "temp_ocr_processing"
        [⟨"a.pdf", true, ".pdf", InnerBehavior.failExtract⟩]).failedFiles = []
    ∧ (runBatch "temp_ocr_processing"
        [⟨"a.pdf", true, ".pdf", InnerBehavior.failExtract⟩]).processedFiles = ["a.pdf"]
    ∧ "a.pdf" ∉ (runBatch "temp_ocr_processing"
        [⟨"a.pdf", true, ".pdf", InnerBehavior.failExtract⟩]).failedFiles := by
  decide

/-- C7 (amended): no single file aborts a directory run — the loop is
total, every eligible entry is accounted for in the summary
(`processed + failed` counts the eligible entries), and every eligible
entry whose processing raises an exception is caught at the
`process_file` boundary and recorded in the failed list. (An extraction
failure returned as an error dictionary is instead recorded as
processed, per `c7_counterexample`.) -/
theorem c7_batch_never_aborts (tempName : String) (entries : List Entry) :
    ((runBatch tempName entries).processedFiles.length
        + (runBatch tempName entries).failedFiles.length
      = (entries.filter (eligible tempName)).length)
    ∧ (∀ e ∈ entries, eligible tempName e = true →
        e.behavior = InnerBehavior.raise →
        e.name ∈ (runBatch tempName entries).failedFiles) := by
  induction entries with
  | nil => exact ⟨rfl, by intro e he; exact absurd he (List.not_mem_nil e)⟩
  | cons e es ih =>
    constructor
    · rw [runBatch]
      by_cases hel : eligible tempName e = true
      · rw [if_pos hel, List.filter_cons_of_pos hel]
        have hlen := ih.1
        split
        · simp only [List.length_cons]
          omega
        · simp only [List.length_cons]
          omega
      · rw [if_neg hel, List.filter_cons_of_neg (by simpa using hel)]
        exact ih.1
    · intro f hf helig hraise
      rw [runBatch]
      rcases List.mem_cons.mp hf with rfl | hmem
      · rw [if_pos helig]
        have hb : processFileOutcome f.behavior = none := by
          rw [hraise]; rfl
        rw [hb]
        exact List.mem_cons_self _ _
      · by_cases hel : eligible tempName e = true
        · rw [if_pos hel]
          have hrec := ih.2 f hmem helig hraise
          split
          · exact List.mem_cons_of_mem _ hrec
          · exact hrec
        · rw [if_neg hel]
          exact ih.2 f hmem helig hraise

/-- C7 witness: a raising file is recorded as failed, and the counts
cover both entries. -/
theorem c7_witness :
    ((runBatch "t" [⟨"a.pdf", true, ".pdf", InnerBehavior.raise⟩,
        ⟨"b.pdf", true, ".pdf", InnerBehavior.ok []⟩]).processedFiles.length
      + (runBatch "t" [⟨"a.pdf", true, ".pdf", InnerBehavior.raise⟩,
        ⟨"b.pdf", true, ".pdf", InnerBehavior.ok []⟩]).failedFiles.length
      = ([⟨"a.pdf", true, ".pdf", InnerBehavior.raise⟩,
        ⟨"b.pdf", true, ".pdf", InnerBehavior.ok []⟩].filter (eligible "t")).length)
    ∧ "a.pdf" ∈ (runBatch "t" [⟨"a.pdf", true, ".pdf", InnerBehavior.raise⟩,
        ⟨"b.pdf", true, ".pdf", InnerBehavior.ok []⟩]).failedFiles :=
  ⟨(c7_batch_never_aborts "t" _).1,
    (c7_batch_never_aborts "t" _).2 ⟨"a.pdf", true, ".pdf", InnerBehavior.raise⟩
      (by simp) (by decide) rfl⟩

end ReceiptOcr

end ClaimC7

section ClaimC4

namespace ReceiptOcr

/-- A string built by appending `.pdf` to any prefix is non-empty. -/
theorem mk_append_pdf_ne_empty (l : List Char) : String.mk (l ++ ".pdf".data) ≠ "" := by
  intro h
  have hdata : l ++ ".pdf".data = ([] : List Char) := congrArg String.data h
  rcases List.append_eq_nil.mp hdata with ⟨h1, h2⟩
  exact absurd h2 (by decide)

/-- The fallback suffix splits into the stem suffix and the extension. -/
theorem receipt_pdf_split : "_receipt.pdf".data = "_receipt".data ++ ".pdf".data := by
  decide

/-- C4: `gemini_ocr.generate_filename_from_info` is total on normalized
records, never returns the empty string, always ends in the `.pdf`
extension, and equals the parts joined by `_` plus the extension when
some assembled part differs from the literal `NA`, else exactly the
original stem followed by `_receipt` and the extension (the all-`NA`
record takes this fallback). -/
theorem c4_gemini_filename_total (r : RecordG) (stem : String) :
    geminiFilename r stem ≠ ""
    ∧ (∃ pre : List Char, (geminiFilename r stem).data = pre ++ ".pdf".data)
    ∧ geminiFilename r stem =
        (if (geminiParts r).any (fun p => p ≠ "NA") then
          String.mk (joinUnderscore ((geminiParts r).map String.data) ++ ".pdf".data)
        else String.mk (stem.data ++ "_receipt.pdf".data)) := by
  refine ⟨?_, ?_, rfl⟩
  · unfold geminiFilename
    split
    · exact mk_append_pdf_ne_empty _
    · rw [receipt_pdf_split, ← List.append_assoc]
      exact mk_append_pdf_ne_empty _
  · unfold geminiFilename
    split
    · exact ⟨joinUnderscore ((geminiParts r).map String.data), rfl⟩
    · refine ⟨stem.data ++ "_receipt".data, ?_⟩
      show stem.data ++ "_receipt.pdf".data = stem.data ++ "_receipt".data ++ ".pdf".data
      rw [receipt_pdf_split, ← List.append_assoc]

end ReceiptOcr

end ClaimC4

section ClaimC3

namespace ReceiptOcr

/-- A string rebuilt from its own character data is itself. -/
theorem string_mk_data (s : String) : String.mk s.data = s := by
  cases s; rfl

/-- C3 counterexample: in the Mistral builder a bare 6-digit date
contributes *no* date part at all (there is no `len >= 6` branch in
`mistral_ocr.generate_filename_from_info`), so the raw date `250101`
does not pass through unchanged there. -/
theorem c3_counterexample :
    mistralDateParts (some "250101") = []
    ∧ mistralDateParts (some "250101") ≠ ["250101"] := by
  decide

/-- C3 (amended): for an all-digit date, both builders reduce an
8-or-more-digit date whose first two characters are `19` or `20`
(equivalently, whose first four digits lie in 1900-2099) to its
characters 3 through 8 (`YYMMDD`); a bare 6-digit date passes through
unchanged in the Gemini builder but yields no date part in the Mistral
builder. -/
theorem c3_date_view (d : String) (hdig : d.data.all isAsciiDigit = true) :
    (8 ≤ d.data.length →
      (d.data.take 2 = "19".data ∨ d.data.take 2 = "20".data) →
      geminiDateParts d = [String.mk ((d.data.drop 2).take 6)]
        ∧ mistralDateParts (some d) = [String.mk ((d.data.drop 2).take 6)])
    ∧ (d.data.length = 6 →
      geminiDateParts d = [d] ∧ mistralDateParts (some d) = []) := by
  constructor
  · intro hlen hpre
    have hne : d.data.isEmpty = false := by
      cases h0 : d.data with
      | nil => rw [h0] at hlen; simp at hlen
      | cons a t => rfl
    have hna : pyLower d.data ≠ "na".data := by
      intro heq
      have hl := congrArg List.length heq
      rw [pyLower_length] at hl
      have h2 : ("na".data).length = 2 := rfl
      omega
    have hge : 8 ≤ d.data.length := hlen
    have htake8 : (d.data.take 8).all isAsciiDigit = true := by
      rw [List.all_eq_true] at hdig ⊢
      intro c hc
      exact hdig c (List.mem_of_mem_take hc)
    obtain ⟨a, b, c3, c4, rest, hd⟩ :
        ∃ a b c3 c4 rest, d.data = a :: b :: c3 :: c4 :: rest := by
      cases h0 : d.data with
      | nil => rw [h0] at hlen; simp at hlen
      | cons a t0 =>
        cases h1 : t0 with
        | nil => rw [h0, h1] at hlen; simp at hlen
        | cons b t1 =>
          cases h2 : t1 with
          | nil => rw [h0, h1, h2] at hlen; simp at hlen
          | cons c3 t2 =>
            cases h3 : t2 with
            | nil => rw [h0, h1, h2, h3] at hlen; simp at hlen
            | cons c4 t3 => exact ⟨a, b, c3, c4, t3, by simp [h0, h1, h2, h3]⟩
    have hc3 : isAsciiDigit c3 = true := by
      rw [List.all_eq_true] at hdig
      exact hdig c3 (by rw [hd]; simp)
    have hc4 : isAsciiDigit c4 = true := by
      rw [List.all_eq_true] at hdig
      exact hdig c4 (by rw [hd]; simp)
    have htake4 : d.data.take 4 = [a, b, c3, c4] := by rw [hd]; rfl
    have hab : (a = '1' ∧ b = '9') ∨ (a = '2' ∧ b = '0') := by
      rcases hpre with h | h
      · left
        rw [hd] at h
        have h2 : [a, b] = ['1', '9'] := h
        exact ⟨by injection h2, by
          injection (by injection h2 : b :: ([] : List Char) = '9' :: [])⟩
      · right
        rw [hd] at h
        have h2 : [a, b] = ['2', '0'] := h
        exact ⟨by injection h2, by
          injection (by injection h2 : b :: ([] : List Char) = '0' :: [])⟩
    have hrange : 1900 ≤ digitsToNat (d.data.take 4)
        ∧ digitsToNat (d.data.take 4) ≤ 2099 := by
      rw [htake4]
      simp only [isAsciiDigit, Bool.and_eq_true, decide_eq_true_eq] at hc3 hc4
      rcases hab with ⟨rfl, rfl⟩ | ⟨rfl, rfl⟩
      · simp only [digitsToNat, List.foldl]
        rw [show ('1' : Char).toNat = 49 from rfl, show ('9' : Char).toNat = 57 from rfl]
        omega
      · simp only [digitsToNat, List.foldl]
        rw [show ('2' : Char).toNat = 50 from rfl, show ('0' : Char).toNat = 48 from rfl]
        omega
    have c1 : (!d.data.isEmpty && decide (pyLower d.data ≠ "na".data)) = true := by
      rw [hne, decide_eq_true hna]
      rfl
    have c4cond : (decide (1900 ≤ digitsToNat (d.data.take 4))
        && decide (digitsToNat (d.data.take 4) ≤ 2099)) = true := by
      rw [decide_eq_true hrange.1, decide_eq_true hrange.2]
      rfl
    constructor
    · unfold geminiDateParts
      rw [if_pos c1, if_pos hge, if_pos htake8, if_pos c4cond]
    · have c1m : (!d.data.isEmpty) = true := by rw [hne]; rfl
      have cpre : (decide (d.data.take 2 = "19".data)
          || decide (d.data.take 2 = "20".data)) = true := by
        rcases hpre with h | h
        · rw [decide_eq_true h]
          rfl
        · rw [decide_eq_true h]
          exact Bool.or_true _
      have c3m : ((decide (d.data.take 2 = "19".data)
          || decide (d.data.take 2 = "20".data))
          && (d.data.take 8).all isAsciiDigit) = true := by
        rw [cpre, htake8]
        rfl
      show (if (!d.data.isEmpty) = true then
          if 8 ≤ d.data.length then
            if ((decide (d.data.take 2 = "19".data) || decide (d.data.take 2 = "20".data))
                && (d.data.take 8).all isAsciiDigit) = true then
              [String.mk ((d.data.drop 2).take 6)]
            else [String.mk (d.data.take 8)]
          else []
        else []) = [String.mk ((d.data.drop 2).take 6)]
      rw [if_pos c1m, if_pos hge, if_pos c3m]
  · intro hlen
    have hne : d.data.isEmpty = false := by
      cases h0 : d.data with
      | nil => rw [h0] at hlen; simp at hlen
      | cons a t => rfl
    have hna : pyLower d.data ≠ "na".data := by
      intro heq
      have hl := congrArg List.length heq
      rw [pyLower_length, hlen] at hl
      exact absurd hl (by decide)
    have hnot8 : ¬ 8 ≤ d.data.length := by omega
    have h6 : 6 ≤ d.data.length := by omega
    have c1 : (!d.data.isEmpty && decide (pyLower d.data ≠ "na".data)) = true := by
      rw [hne, decide_eq_true hna]
      rfl
    constructor
    · unfold geminiDateParts
      rw [if_pos c1, if_neg hnot8, if_pos h6,
        List.take_of_length_le (by omega), string_mk_data]
    · have c1m : (!d.data.isEmpty) = true := by rw [hne]; rfl
      show (if (!d.data.isEmpty) = true then
          if 8 ≤ d.data.length then
            if ((decide (d.data.take 2 = "19".data) || decide (d.data.take 2 = "20".data))
                && (d.data.take 8).all isAsciiDigit) = true then
              [String.mk ((d.data.drop 2).take 6)]
            else [String.mk (d.data.take 8)]
          else []
        else []) = ([] : List String)
      rw [if_pos c1m, if_neg hnot8]

/-- C3 witness: the scenario dates `20250101` and `250101`, plus a
9-digit date exercising the 8-or-more case. -/
theorem c3_witness :
    geminiDateParts "20250101" = ["250101"]
    ∧ mistralDateParts (some "20250101") = ["250101"]
    ∧ geminiDateParts "202501015" = ["250101"]
    ∧ mistralDateParts (some "202501015") = ["250101"]
    ∧ geminiDateParts "250101" = ["250101"]
    ∧ mistralDateParts (some "250101") = [] := by
  have h8 := (c3_date_view "20250101" (by decide)).1 (by decide) (Or.inr (by decide))
  have h9 := (c3_date_view "202501015" (by decide)).1 (by decide) (Or.inr (by decide))
  have h6 := (c3_date_view "250101" (by decide)).2 (by decide)
  refine ⟨?_, ?_, ?_, ?_, ?_, h6.2⟩
  · rw [h8.1]
    decide
  · rw [h8.2]
    decide
  · rw [h9.1]
    decide
  · rw [h9.2]
    decide
  · rw [h6.1]

end ReceiptOcr

end ClaimC3

section ClaimC2

namespace ReceiptOcr

/-- Unfolding of the NA-degradation on a present field. -/
theorem fillNA_some (s : String) :
    fillNA (some s) = if (pyStrip s.data).isEmpty = true then "NA" else s := rfl

/-- Unfolding of the NA-degradation on an absent field. -/
theorem fillNA_none_eq : fillNA none = "NA" := rfl

/-- Unicode decimal digits are not Python whitespace. -/
theorem isPySpace_eq_false_of_pyDigit (c : Char) (h : isPyDigit c = true) :
    isPySpace c = false := by
  simp only [isPyDigit, isAsciiDigit, Bool.or_eq_true, Bool.and_eq_true,
    decide_eq_true_eq] at h
  simp only [isPySpace, Bool.or_eq_false_iff, decide_eq_false_iff_not]
  omega

/-- The ASCII digit characters are Unicode decimal digits. -/
theorem digitChar48_isPyDigit (k : Nat) (h : k ≤ 9) :
    isPyDigit (digitChar48 k) = true := by
  interval_cases k <;> decide

/-- NA-degradation keeps a non-empty digit string. -/
theorem fillNA_digit_list (l : List Char) (hne : l ≠ [])
    (hdig : ∀ c ∈ l, isPyDigit c = true) :
    fillNA (some (String.mk l)) = String.mk l := by
  rw [fillNA_some]
  have hstrip : pyStrip (String.mk l).data = l :=
    pyStrip_eq_self l (fun c hc => isPySpace_eq_false_of_pyDigit c (hdig c hc))
  rw [hstrip]
  rw [if_neg]
  intro hcontra
  cases l with
  | nil => exact hne rfl
  | cons a as => exact absurd hcontra (by simp)

/-- C2 (amended): the date field after the `extract_info_with_mistral`
date block followed by `process_file`'s NA-degradation is total and is
either the sentinel `NA` or a string of *Unicode* decimal digits of
length 6 or 8 (in fact every non-sentinel output has length 8: a
6-digit residue always gains a 2-digit century prefix). It is an
ASCII `[0-9]` string only when the digit residue is ASCII — Python's
`\d` and `str.isdigit` keep every Nd digit, per `c2_counterexample`.
`nowYear` is the wall-clock year the code reads from `datetime.now()`;
the fillNA helper lemmas above carry the branch bookkeeping. -/
theorem c2_normalize_date (raw : Option String) (nowYear : Nat)
    (h1 : 2000 ≤ nowYear) (h2 : nowYear ≤ 9999) :
    normalizeDate nowYear raw = "NA"
    ∨ ((normalizeDate nowYear raw).data.all isPyDigit = true
      ∧ ((normalizeDate nowYear raw).data.length = 6
          ∨ (normalizeDate nowYear raw).data.length = 8)) := by
  cases raw with
  | none => exact Or.inl rfl
  | some s =>
    have hred : normalizeDate nowYear (some s)
        = fillNA (if s.data.isEmpty = true then some s
          else if ((pyStrip s.data).isEmpty
              || decide (pyLower (pyStrip s.data) = "null".data)
              || decide (pyLower (pyStrip s.data) = "none".data)) = true then none
          else if (dateDigits s).isEmpty = true then none
          else if (dateDigits s).length = 6 then
            some (String.mk (natRepr (centuryFor nowYear (dateDigits s)) ++ dateDigits s))
          else if (dateDigits s).length = 8 then some (String.mk (dateDigits s))
          else if 8 ≤ (dateDigits s).length then some (String.mk ((dateDigits s).take 8))
          else none) := rfl
    rw [hred]
    by_cases hc0 : s.data.isEmpty = true
    · rw [if_pos hc0]
      left
      rw [fillNA_some, if_pos]
      have hsd : s.data = [] := by
        cases h : s.data with
        | nil => rfl
        | cons a as => rw [h] at hc0; exact absurd hc0 (by simp)
      rw [hsd]
      rfl
    · rw [if_neg hc0]
      by_cases hc1 : ((pyStrip s.data).isEmpty
          || decide (pyLower (pyStrip s.data) = "null".data)
          || decide (pyLower (pyStrip s.data) = "none".data)) = true
      · rw [if_pos hc1]
        exact Or.inl rfl
      · rw [if_neg hc1]
        by_cases hd0 : (dateDigits s).isEmpty = true
        · rw [if_pos hd0]
          exact Or.inl rfl
        · rw [if_neg hd0]
          have hdne : dateDigits s ≠ [] := by
            intro hcontra
            rw [hcontra] at hd0
            exact hd0 rfl
          have hdig : ∀ c ∈ dateDigits s, isPyDigit c = true :=
            fun c hc => (List.mem_filter.mp hc).2
          by_cases h6 : (dateDigits s).length = 6
          · rw [if_pos h6]
            have hcc : 10 ≤ centuryFor nowYear (dateDigits s)
                ∧ centuryFor nowYear (dateDigits s) ≤ 99 := by
              unfold centuryFor
              split
              · omega
              · omega
            have hrep := natRepr_two_digit _ hcc.1 hcc.2
            have hldig : ∀ c ∈ natRepr (centuryFor nowYear (dateDigits s)) ++ dateDigits s,
                isPyDigit c = true := by
              intro c hc
              rcases List.mem_append.mp hc with hc | hc
              · rw [hrep] at hc
                rcases List.mem_cons.mp hc with rfl | hc
                · exact digitChar48_isPyDigit _ (by omega)
                · rcases List.mem_cons.mp hc with rfl | hc
                  · exact digitChar48_isPyDigit _ (by omega)
                  · exact absurd hc (List.not_mem_nil c)
              · exact hdig c hc
            have hlne : natRepr (centuryFor nowYear (dateDigits s)) ++ dateDigits s ≠ [] := by
              intro hcontra
              rcases List.append_eq_nil.mp hcontra with ⟨hl1, hl2⟩
              exact hdne hl2
            rw [fillNA_digit_list _ hlne hldig]
            right
            constructor
            · rw [List.all_eq_true]
              exact hldig
            · right
              show (natRepr (centuryFor nowYear (dateDigits s)) ++ dateDigits s).length = 8
              rw [List.length_append, hrep, h6]
              rfl
          · rw [if_neg h6]
            by_cases h8 : (dateDigits s).length = 8
            · rw [if_pos h8]
              rw [fillNA_digit_list _ hdne hdig]
              right
              constructor
              · rw [List.all_eq_true]
                exact hdig
              · right
                exact h8
            · rw [if_neg h8]
              by_cases h8p : 8 ≤ (dateDigits s).length
              · rw [if_pos h8p]
                have htne : (dateDigits s).take 8 ≠ [] := by
                  intro hcontra
                  have hlen := congrArg List.length hcontra
                  rw [List.length_take] at hlen
                  have hmin : min 8 (dateDigits s).length = 0 := by simpa using hlen
                  omega
                have htdig : ∀ c ∈ (dateDigits s).take 8, isPyDigit c = true :=
                  fun c hc => hdig c (List.mem_of_mem_take hc)
                rw [fillNA_digit_list _ htne htdig]
                right
                constructor
                · rw [List.all_eq_true]
                  exact htdig
                · right
                  show ((dateDigits s).take 8).length = 8
                  rw [List.length_take]
                  omega
              · rw [if_neg h8p]
                exact Or.inl rfl

/-- C2 counterexample: the full-width digits of `２０２３０５１６`
are Unicode decimal digits, so Python's `re.sub(r'[^\d]')` keeps them
and `str.isdigit` accepts them; the 8-character residue passes through
unchanged, so the stored date is neither the `NA` sentinel nor an
ASCII `[0-9]` string — the claimed `^[0-9]{6}$|^[0-9]{8}$` totality is
false of the program. -/
theorem c2_counterexample :
    ¬(normalizeDate 2026 (some "２０２３０５１６") = "NA"
      ∨ ((normalizeDate 2026 (some "２０２３０５１６")).data.all isAsciiDigit = true
        ∧ ((normalizeDate 2026 (some "２０２３０５１６")).data.length = 6
            ∨ (normalizeDate 2026 (some "２０２３０５１６")).data.length = 8))) := by
  decide

/-- C2 witness: concrete dates through the main branches at the current
year, including the non-ASCII pass-through. -/
theorem c2_witness :
    (normalizeDate 2026 (some "2023-05-16") = "NA"
      ∨ ((normalizeDate 2026 (some "2023-05-16")).data.all isPyDigit = true
        ∧ ((normalizeDate 2026 (some "2023-05-16")).data.length = 6
            ∨ (normalizeDate 2026 (some "2023-05-16")).data.length = 8)))
    ∧ normalizeDate 2026 (some "2023-05-16") = "20230516"
    ∧ normalizeDate 2026 (some "230516") = "20230516"
    ∧ normalizeDate 2026 (some "２０２３０５１６") = "２０２３０５１６"
    ∧ normalizeDate 2026 (some "abc") = "NA" :=
  ⟨c2_normalize_date (some "2023-05-16") 2026 (by omega) (by omega),
    by decide, by decide, by decide, by decide⟩

end ReceiptOcr

end ClaimC2

section ClaimC9

namespace ReceiptOcr

/-- Characters kept by the second place regex are kept by the first:
the Hangul ranges are word characters. -/
theorem keep2_imp_keep1 (c : Char) (h : keepWordSpaceHangul c = true) :
    keepWordSpace c = true := by
  simp only [keepWordSpaceHangul, Bool.or_eq_true] at h
  simp only [keepWordSpace, Bool.or_eq_true]
  rcases h with (h | h) | h
  · exact Or.inl h
  · exact Or.inr h
  · left
    unfold pyWordChar
    rw [h]
    simp

/-- C9: the composite place sanitization of
`gemini_ocr.generate_filename_from_info` (drop non word or space
characters, spaces to underscores, truncate to 30, then drop characters
outside word, space and Hangul) is idempotent: its output contains only
kept characters, contains no space, and is at most 30 long, so a second
pass changes nothing. -/
theorem c9_sanitize_idempotent (s : String) :
    sanitizePlace (sanitizePlace s) = sanitizePlace s := by
  show String.mk (sanitizePlace2 (sanitizePlace1 (sanitizePlace2 (sanitizePlace1 s.data))))
      = String.mk (sanitizePlace2 (sanitizePlace1 s.data))
  apply congrArg
  set y := sanitizePlace2 (sanitizePlace1 s.data) with hy
  have hk2 : ∀ c ∈ y, keepWordSpaceHangul c = true := by
    intro c hc
    rw [hy] at hc
    exact (List.mem_filter.mp hc).2
  have hk1 : ∀ c ∈ y, keepWordSpace c = true :=
    fun c hc => keep2_imp_keep1 c (hk2 c hc)
  have hns : ∀ c ∈ y, c ≠ ' ' := by
    intro c hc
    rw [hy] at hc
    have h1 : c ∈ sanitizePlace1 s.data := (List.mem_filter.mp hc).1
    have h2 : c ∈ (s.data.filter keepWordSpace).map
        (fun c => if c = ' ' then '_' else c) := List.mem_of_mem_take h1
    rcases List.mem_map.mp h2 with ⟨b, hb, hbc⟩
    intro hsp
    rw [hsp] at hbc
    by_cases hb2 : b = ' '
    · rw [if_pos hb2] at hbc
      exact absurd hbc (by decide)
    · rw [if_neg hb2] at hbc
      exact hb2 hbc
  have hlen : y.length ≤ 30 := by
    have hl1 : y.length ≤ (sanitizePlace1 s.data).length := by
      rw [hy]
      exact List.length_filter_le _ _
    have hl2 : (sanitizePlace1 s.data).length ≤ 30 := by
      unfold sanitizePlace1
      rw [List.length_take]
      exact Nat.min_le_left _ _
    omega
  show sanitizePlace2 (sanitizePlace1 y) = y
  unfold sanitizePlace1
  rw [List.filter_eq_self.mpr hk1]
  rw [map_eq_self_of_mem _ y (fun c hc => by rw [if_neg (hns c hc)])]
  rw [List.take_of_length_le hlen]
  show y.filter keepWordSpaceHangul = y
  rw [List.filter_eq_self.mpr hk2]

end ReceiptOcr

end ClaimC9
